import Mathlib

/-!
# Switchtec management library: command transport, device handle, enumeration

A shallow embedding of `lib/switchtec.c` together with the properties of its
command framing (`switchtec_submit_cmd`, `switchtec_read_resp`, `switchtec_cmd`,
`switchtec_echo`), of the handle constructor (`switchtec_open`) and of the
registry scan (`switchtec_list`).

Conventions of the embedding:

* `int` and `int32_t` are 32-bit two's complement (`toInt32` is the conversion
  of a wider value); the host is little-endian, so the object representation of
  a `uint32_t` is its four bytes, least significant first.
* A buffer passed as pointer + length is a `List Byte`; a pointer that may be
  `NULL` is an `Option`. A destination buffer is the memory found at the
  pointer, which may extend past the bytes a call writes.
* A length of type `size_t` is a `Nat`: the buffers are objects in memory, so
  `payload_len + 4` and `4 + resp_len` do not wrap. The value a transfer reports
  is a `ssize_t`; the source stores it in an `int`, which `toInt32` renders.
* The kernel side of the device node, the file system and the allocator are the
  environment: they are parameters (`Channel`, `Host`, `SysFs`).
* A C string is a `List Char`, one `Char` per `char`.
* The heap is the list of the addresses of its live blocks, and `free` acts on
  it. The calls that release a block the function itself obtained
  (`free(devices)`, `free(dev)`) always succeed and are left out; the call
  `free(devices[n])` of `switchtec_list` is kept. A result `none` of
  `switchtec_list` stands for undefined behaviour.
-/

namespace Switchtec

/-! ## Bytes and machine integers -/

abbrev Byte := Fin 256

/-- The value `EIO` of `<errno.h>` on Linux. -/
def EIO_code : Int := 5

/-- The value `ENOMEM` of `<errno.h>` on Linux. -/
def ENOMEM_code : Int := 12

/-- The value `ENOTTY` of `<errno.h>` on Linux. -/
def ENOTTY_code : Int := 25

/-- Command code `MRPC_RESET` of `enum mrpc_cmd`. -/
def MRPC_RESET : Nat := 27

/-- Command code `MRPC_ECHO` of `enum mrpc_cmd`. -/
def MRPC_ECHO : Nat := 65

/-- Conversion of an integer to a 32-bit two's complement `int`. -/
def toInt32 (x : Int) : Int := (x + 2 ^ 31) % 2 ^ 32 - 2 ^ 31

/-- The low eight bits of a number, as a byte. -/
def byteOf (n : Nat) : Byte := ⟨n % 256, Nat.mod_lt _ (by decide)⟩

/-- The function `htole32` on a little-endian host: the value, as a `uint32_t`. -/
def htole32 (x : Nat) : Nat := x % 2 ^ 32

/-- Object representation of a `uint32_t`: the four bytes that
`memcpy(dst, &x, sizeof(x))` copies. -/
def u32_bytes (x : Nat) : List Byte :=
  [byteOf x, byteOf (x / 2 ^ 8), byteOf (x / 2 ^ 16), byteOf (x / 2 ^ 24)]

/-- The `uint32_t` whose object representation is the first four bytes of `b`. -/
def u32_of_bytes (b : List Byte) : Nat :=
  (b.getD 0 0).val + 2 ^ 8 * (b.getD 1 0).val + 2 ^ 16 * (b.getD 2 0).val
    + 2 ^ 24 * (b.getD 3 0).val

/-- The `int32_t` that `memcpy(&ret, buf, sizeof(ret))` leaves in `ret`. -/
def i32_of_bytes (b : List Byte) : Int := toInt32 (u32_of_bytes b)

/-- The call `memcpy(dst, src, n)` seen from `dst`: its first `n` bytes are
replaced by those of `src`, the rest is untouched. -/
def memcpy (dst src : List Byte) (n : Nat) : List Byte := src.take n ++ dst.drop n

/-! ## The channel behind `dev->fd` -/

/-- A system call issued on the device node. -/
inductive Sys where
  | write (buf : List Byte) (count : Nat)
  | read (count : Nat)
deriving DecidableEq

/-- The kernel side of the device node. `write st buf count` is the value
`write(fd, buf, count)` reports (a `ssize_t`) and the next state;
`read st count` is the value `read(fd, buf, count)` reports, the bytes it stored
in `buf`, and the next state. -/
structure Channel (σ : Type) where
  write : σ → List Byte → Nat → Int × σ
  read : σ → Nat → Int × List Byte × σ

/-- The open device node of a handle: the state of its channel and the calls
issued on it so far. -/
structure Wire (σ : Type) where
  st : σ
  log : List Sys

variable {σ : Type}

/-- The call `write(dev->fd, buf, count)`. -/
def sys_write (ch : Channel σ) (dev : Wire σ) (buf : List Byte) (count : Nat) :
    Int × Wire σ :=
  ((ch.write dev.st buf count).1,
    { st := (ch.write dev.st buf count).2, log := dev.log ++ [Sys.write buf count] })

/-- The call `read(dev->fd, buf, count)`: the reported value, the contents of
`buf` afterwards (the bytes the channel stored, `count` at most), the channel. -/
def sys_read (ch : Channel σ) (dev : Wire σ) (count : Nat) :
    Int × List Byte × Wire σ :=
  ((ch.read dev.st count).1, (ch.read dev.st count).2.1.take count,
    { st := (ch.read dev.st count).2.2, log := dev.log ++ [Sys.read count] })

/-! ## Command transport -/

/-- The function `switchtec_submit_cmd`. -/
def switchtec_submit_cmd (ch : Channel σ) (dev : Wire σ) (cmd : Nat)
    (payload : List Byte) : Int × Wire σ :=
  let buf := u32_bytes (htole32 cmd) ++ payload
  let size := payload.length + 4
  let w := sys_write ch dev buf size
  let ret := toInt32 w.1
  if ret < 0 then (ret, w.2)
  else if ret ≠ (size : Int) then (-EIO_code, w.2)
  else (0, w.2)

/-- The function `switchtec_read_resp`: the value returned, the memory at
`resp` afterwards, the channel. -/
def switchtec_read_resp (ch : Channel σ) (dev : Wire σ) (resp : Option (List Byte))
    (resp_len : Nat) : Int × Option (List Byte) × Wire σ :=
  let size := 4 + resp_len
  let r := sys_read ch dev size
  let buf := r.2.1
  let ret := toInt32 r.1
  if ret < 0 then (ret, resp, r.2.2)
  else if ret ≠ (size : Int) then (-EIO_code, resp, r.2.2)
  else
    let ret := i32_of_bytes buf
    match resp with
    | none => (ret, none, r.2.2)
    | some mem => (ret, some (memcpy mem (buf.drop 4) resp_len), r.2.2)

/-- The function `switchtec_cmd`. -/
def switchtec_cmd (ch : Channel σ) (dev : Wire σ) (cmd : Nat) (payload : List Byte)
    (resp : Option (List Byte)) (resp_len : Nat) : Int × Option (List Byte) × Wire σ :=
  let s := switchtec_submit_cmd ch dev cmd payload
  if s.1 < 0 then (s.1, resp, s.2)
  else switchtec_read_resp ch s.2 resp resp_len

/-- The function `switchtec_echo`. `output` is the memory at the pointer
`output` (the caller's `uint32_t` first); `sizeof_ptr` is `sizeof(output)`, the
size of a pointer to `uint32_t`: 8 on a 64-bit host, 4 on a 32-bit one. -/
def switchtec_echo (sizeof_ptr : Nat) (ch : Channel σ) (dev : Wire σ) (input : Nat)
    (output : Option (List Byte)) : Int × Option (List Byte) × Wire σ :=
  switchtec_cmd ch dev MRPC_ECHO (u32_bytes input) output sizeof_ptr

/-- The function `switchtec_hard_reset`. -/
def switchtec_hard_reset (ch : Channel σ) (dev : Wire σ) :
    Int × Option (List Byte) × Wire σ :=
  switchtec_cmd ch dev MRPC_RESET (u32_bytes 0) none 0

/-- A simulated loopback device. Its state is the reply frame it holds. A write
of the 8-byte request frame (echo code, then four bytes of value) is accepted
whole and makes the reply frame a zero status followed by the four value bytes;
any other write is refused. A read delivers the reply frame, cut to the
requested size. -/
def echoSim : Channel (List Byte) where
  write st buf count :=
    if count = 8 ∧ buf.length = 8 ∧ buf.take 4 = u32_bytes MRPC_ECHO then
      (8, u32_bytes 0 ++ buf.drop 4)
    else (-1, st)
  read st count := (((st.take count).length : Nat), st.take count, [])

/-- A channel that reports `wr` for every write and delivers `reply` (reporting
its length) for every read. -/
def constChan (wr : Int) (reply : List Byte) : Channel Unit where
  write _ _ _ := (wr, ())
  read _ _ := ((reply.length : Nat), reply, ())

/-! ## C strings -/

/-- The value `PATH_MAX` of `<limits.h>` on Linux. -/
def PATH_MAX : Nat := 4096

/-- The string `snprintf(dst, size, ...)` leaves in `dst` when the formatted
text is `s`: at most `size - 1` characters of it. -/
def snprintf (size : Nat) (s : List Char) : List Char := s.take (size - 1)

/-- The text `printf` produces for `%d`, the argument converted to `int`. -/
def fmt_d (n : Int) : List Char := (toString (toInt32 n)).toList

/-- The C string held by a character array: its characters up to the first NUL. -/
def cstr (buf : List Char) : List Char := buf.takeWhile (fun c => c ≠ Char.ofNat 0)

/-! ## Device handle -/

/-- The handle `struct switchtec_dev`: the descriptor of the open device node. -/
structure switchtec_dev where
  fd : Nat
deriving DecidableEq

/-- The process state the handle constructor acts on: the open channels
(descriptor and the node it is open on) and `errno`. -/
structure OS where
  fds : List (Nat × List Char)
  errno : Int
deriving DecidableEq

/-- The environment of `switchtec_open`: whether `malloc` succeeds, the error
with which opening a node fails (`none` when it opens), the device identity
`major`, `minor` that `fstat` reports for a node (or its error), and which paths
`access(path, F_OK)` finds. -/
structure Host where
  malloc_ok : Bool
  open_error : List Char → Option Int
  fstat : List Char → Except Int (Nat × Nat)
  access : List Char → Bool

/-- The lowest descriptor not in use. -/
def lowestFree (used : List Nat) : Nat :=
  ((List.range (used.length + 1)).find? (fun k => decide (k ∉ used))).getD 0

/-- The call `open(path, O_RDWR | O_CLOEXEC)`: the value returned and the
process state. -/
def sys_open (h : Host) (os : OS) (path : List Char) : Int × OS :=
  match h.open_error path with
  | some e => (-1, { os with errno := e })
  | none =>
    let fd := lowestFree (os.fds.map Prod.fst)
    ((fd : Int), { os with fds := (fd, path) :: os.fds })

/-- The call `close(fd)`. -/
def sys_close (os : OS) (fd : Nat) : Int × OS :=
  if fd ∈ os.fds.map Prod.fst then
    (0, { os with fds := os.fds.filter (fun e => e.1 ≠ fd) })
  else (-1, { os with errno := 9 })

/-- The path whose existence `check_device` tests for a device identity. -/
def check_path (major minor : Nat) : List Char :=
  snprintf PATH_MAX ("/sys/dev/char/".toList ++ fmt_d major ++ ":".toList ++ fmt_d minor
    ++ "/device/switchtec".toList)

/-- The function `check_device`. -/
def check_device (h : Host) (os : OS) (fd : Nat) : Int × OS :=
  match os.fds.lookup fd with
  | none => (-1, { os with errno := 9 })
  | some node =>
    match h.fstat node with
    | Except.error e => (-1, { os with errno := e })
    | Except.ok (major, minor) =>
      if h.access (check_path major minor) then (0, os)
      else (-1, { os with errno := ENOTTY_code })

/-- The function `switchtec_open`: the handle (`none` for `NULL`) and the
process state. -/
def switchtec_open (h : Host) (os : OS) (path : List Char) : Option switchtec_dev × OS :=
  if h.malloc_ok = false then (none, { os with errno := ENOMEM_code })
  else
    let o := sys_open h os path
    if o.1 < 0 then (none, o.2)
    else
      let c := check_device h o.2 o.1.toNat
      if c.1 ≠ 0 then (none, (sys_close c.2 o.1.toNat).2)
      else (some { fd := o.1.toNat }, c.2)

/-- The function `switchtec_close`. -/
def switchtec_close (os : OS) (dev : switchtec_dev) : OS := (sys_close os dev.fd).2

/-! ## Device registry -/

/-- The record `struct switchtec_device_info`. -/
structure switchtec_device_info where
  name : List Char
  pci_dev : List Char
  model : List Char
  path : List Char
deriving DecidableEq

/-- The sizes of the character arrays of `struct switchtec_device_info`. The
structure is declared in `switchtec/switchtec.h`; its array sizes are taken as
parameters. -/
structure InfoSizes where
  name : Nat
  pci_dev : Nat
  model : Nat
  path : Nat

/-- The environment of `switchtec_list`: the file system and the heap.

* `dir` is the listing of the management directory, one `d_name` per entry in
  directory order, or `none` when `scandir` cannot read it.
* `calloc_ok` tells whether the allocation of the result array succeeds.
* `readlink p` is the target of the symbolic link `p` (`none` when the call
  fails), and `residue p` the bytes that follow it in the destination buffer
  when the call returns: `readlink` appends no NUL.
* `file p` is `none` when `p` cannot be opened; otherwise the value `read`
  reports and the memory at the destination buffer once it returned.
* `past` is the word found at `devices[n]`, the slot after the `n` entries that
  `scandir` stored in its vector; `scandir` does not write it. The word 0 is
  `NULL`.
* `heap` holds the addresses of the heap blocks that are live when the loops of
  `switchtec_list` run. -/
structure SysFs where
  dir : Option (List (List Char))
  calloc_ok : Bool
  readlink : List Char → Option (List Char)
  residue : List Char → List Char
  file : List Char → Option (Int × List Char)
  past : Nat
  heap : List Nat

/-- The call `free(p)`: nothing for `NULL`, the release of a live block, and
undefined behaviour (`none`) for any other word. -/
def free (heap : List Nat) (p : Nat) : Option (List Nat) :=
  if p = 0 then some heap
  else if p ∈ heap then some (heap.erase p)
  else none

/-- The management directory, `sys_path`. -/
def sys_path : List Char := "/sys/class/switchtec".toList

/-- The function `scan_dev_filter`. -/
def scan_dev_filter (d_name : List Char) : Int :=
  if d_name.head? = some '.' then 0 else 1

/-- The sign of `strcmp(a, b)`: bytewise comparison of two C strings. -/
def strcmp : List Char → List Char → Int
  | [], [] => 0
  | [], _ :: _ => -1
  | _ :: _, [] => 1
  | a :: as, b :: bs =>
    if a.toNat < b.toNat then -1 else if b.toNat < a.toNat then 1 else strcmp as bs

/-- The order of `alphasort` (`strcoll` in the C locale): `a` is not after `b`. -/
def alphasort (a b : List Char) : Prop := strcmp a b ≤ 0

instance alphasort_decidable : DecidableRel alphasort :=
  fun a b => inferInstanceAs (Decidable (strcmp a b ≤ 0))

/-- The call `scandir(sys_path, &devices, filter, alphasort)`: the value
returned and the entries selected, sorted. -/
def scandir (fs : SysFs) (filter : List Char → Int) : Int × List (List Char) :=
  match fs.dir with
  | none => (-1, [])
  | some entries =>
    let devices := (entries.filter (fun d => filter d ≠ 0)).insertionSort alphasort
    ((devices.length : Int), devices)

/-- The function `basename` of `<libgen.h>`: the final component of a path,
trailing slashes ignored; `.` for the empty path and `/` for a path of slashes
only. -/
def basename (p : List Char) : List Char :=
  let q := (p.reverse.dropWhile (fun c => c = '/')).reverse
  if p = [] then ['.']
  else if q = [] then ['/']
  else (q.reverse.takeWhile (fun c => c ≠ '/')).reverse

/-- The function `isspace` in the C locale. -/
def isspace (c : Char) : Bool :=
  c = ' ' ∨ (9 ≤ c.toNat ∧ c.toNat ≤ 13)

/-- The value of a character as a digit, letters counting from ten. -/
def digitVal (c : Char) : Option Nat :=
  if '0' ≤ c ∧ c ≤ '9' then some (c.toNat - 48)
  else if 'a' ≤ c ∧ c ≤ 'z' then some (c.toNat - 87)
  else if 'A' ≤ c ∧ c ≤ 'Z' then some (c.toNat - 55)
  else none

/-- The digits of `strtol`: the number read in `base` from the front of the
text, stopping at the first character that is no digit of the base. -/
def strtol_digits (base : Nat) : Nat → List Char → Nat
  | acc, [] => acc
  | acc, c :: cs =>
    match digitVal c with
    | some d => if d < base then strtol_digits base (acc * base + d) cs else acc
    | none => acc

/-- The call `strtol(s, NULL, 0)` with a 64-bit `long`: leading white space, an
optional sign, base 16 after `0x`, 8 after `0`, 10 otherwise; the result is
clamped to the range of `long`. -/
def strtol (s : List Char) : Int :=
  let s1 := s.dropWhile isspace
  let neg := s1.head? = some '-'
  let s2 := if s1.head? = some '-' ∨ s1.head? = some '+' then s1.tail else s1
  let mag : Nat :=
    match s2 with
    | '0' :: x :: h :: t =>
      if (x = 'x' ∨ x = 'X') ∧ (digitVal h).any (fun d => d < 16) then
        strtol_digits 16 0 (h :: t)
      else strtol_digits 8 0 (x :: h :: t)
    | '0' :: t => strtol_digits 8 0 t
    | _ => strtol_digits 10 0 s2
  if neg then max (-(mag : Int)) (-(2 ^ 63)) else min (mag : Int) (2 ^ 63 - 1)

/-- The function `sysfs_read_str`: the value returned and the memory at `buf`. -/
def sysfs_read_str (fs : SysFs) (path : List Char) : Int × List Char :=
  match fs.file path with
  | none => (-1, [])
  | some (r, buf) => (toInt32 r, buf)

/-- The function `sysfs_read_int`. -/
def sysfs_read_int (fs : SysFs) (path : List Char) : Int :=
  let r := sysfs_read_str fs path
  if r.1 < 0 then r.1 else toInt32 (strtol r.2)

/-- The character `printf` writes for a hexadecimal digit under `%X`. -/
def hexDigit (d : Nat) : Char :=
  if d < 10 then Char.ofNat (48 + d) else Char.ofNat (55 + d)

/-- The digits `printf` writes for `%X`, most significant first, for a number of
at most `k` hexadecimal digits. -/
def fmt_X_digits : Nat → Nat → List Char
  | 0, _ => []
  | k + 1, n => if n < 16 then [hexDigit n] else fmt_X_digits k (n / 16) ++ [hexDigit (n % 16)]

/-- The text `printf` produces for `%X`: the argument is converted to
`unsigned int`, which has at most eight hexadecimal digits. -/
def fmt_X (n : Int) : List Char := fmt_X_digits 8 (n % 2 ^ 32).toNat

/-- The path of the backing-bus link of an entry: `sys_path/d_name/device`. -/
def device_link (d_name : List Char) : List Char :=
  snprintf PATH_MAX (sys_path ++ ['/'] ++ d_name ++ "/device".toList)

/-- The path of the model file of an entry: `sys_path/d_name/device/device`. -/
def model_file (d_name : List Char) : List Char :=
  snprintf PATH_MAX (sys_path ++ ['/'] ++ d_name ++ "/device/device".toList)

/-- One turn of the loop of `switchtec_list`: the record filled for an entry. -/
def list_entry (fs : SysFs) (sz : InfoSizes) (d_name : List Char) : switchtec_device_info :=
  let link_path := device_link d_name
  let pci_dev :=
    match fs.readlink link_path with
    | some target =>
      if 0 < (target.take PATH_MAX).length then
        snprintf sz.pci_dev (basename (cstr (target.take PATH_MAX ++ fs.residue link_path)))
      else snprintf sz.pci_dev "unknown pci device".toList
    | none => snprintf sz.pci_dev "unknown pci device".toList
  let model := sysfs_read_int fs (model_file d_name)
  { name := snprintf sz.name d_name
    path := snprintf sz.path ("/dev/".toList ++ d_name)
    pci_dev := pci_dev
    model :=
      if model > 0 then snprintf sz.model ("PM".toList ++ fmt_X model)
      else snprintf sz.model "unknown".toList }

/-- The outcome of a call of `switchtec_list` that returns: the value returned,
the array handed to the caller through `devlist` (`none` when no array is
handed over) and the live heap blocks. -/
structure ListResult where
  ret : Int
  devlist : Option (List switchtec_device_info)
  heap : List Nat
deriving DecidableEq

/-- The loop `for (i = 0; i < n; i++) free(devices[n]);` that `switchtec_list`
runs when the allocation fails: `n` calls of `free` on the word `past`. -/
def free_loop (past : Nat) : Nat → List Nat → Option (List Nat)
  | 0, heap => some heap
  | k + 1, heap =>
    match free heap past with
    | none => none
    | some h => free_loop past k h

/-- The main loop of `switchtec_list` over the entries left: each turn fills the
record of its entry and then calls `free(devices[n])`. -/
def list_loop (fs : SysFs) (sz : InfoSizes) :
    List (List Char) → List Nat → Option (List switchtec_device_info × List Nat)
  | [], heap => some ([], heap)
  | d :: ds, heap =>
    match free heap fs.past with
    | none => none
    | some h =>
      match list_loop fs sz ds h with
      | none => none
      | some (recs, h2) => some (list_entry fs sz d :: recs, h2)

/-- The function `switchtec_list`; `none` when its behaviour is undefined. -/
def switchtec_list (fs : SysFs) (sz : InfoSizes) : Option ListResult :=
  let s := scandir fs scan_dev_filter
  if s.1 ≤ 0 then some { ret := s.1, devlist := none, heap := fs.heap }
  else if fs.calloc_ok = false then
    match free_loop fs.past s.1.toNat fs.heap with
    | none => none
    | some h => some { ret := -ENOMEM_code, devlist := none, heap := h }
  else
    match list_loop fs sz s.2 fs.heap with
    | none => none
    | some (recs, h) => some { ret := s.1, devlist := some recs, heap := h }

/-! ## Concrete inputs -/

/-- A channel on which nothing has been issued yet. -/
def demoWire : Wire Unit := { st := (), log := [] }

/-- A six-byte reply frame: the status -2, then two payload bytes. -/
def demoReply : List Byte := [0xfe, 0xff, 0xff, 0xff, 7, 8]

/-- A host on which every node opens and has device identity 1:3, and on which
only the management path of the identity 240:0 exists. -/
def demoHost : Host where
  malloc_ok := true
  open_error _ := none
  fstat _ := Except.ok (1, 3)
  access p := p = "/sys/dev/char/240:0/device/switchtec".toList

/-- A process with the three standard descriptors open. -/
def demoOS : OS :=
  { fds := [(0, "/dev/tty".toList), (1, "/dev/tty".toList), (2, "/dev/tty".toList)], errno := 0 }

/-- A listing of the management directory: two hidden entries, two devices. -/
def demoEntries : List (List Char) :=
  [".".toList, "..".toList, "switchtec1".toList, "switchtec0".toList]

/-- A registry with two devices. The backing-bus link of `switchtec0` resolves
and is followed by a NUL in the buffer; that of `switchtec1` does not resolve.
The model files hold `0x8543` and `0x54`. The slot after the entries of the
vector of `scandir` holds `NULL`. -/
def demoFs : SysFs where
  dir := some demoEntries
  calloc_ok := true
  readlink p :=
    if p = "/sys/class/switchtec/switchtec0/device".toList then
      some ("../../../".toList ++ "0000:03:00.1".toList)
    else none
  residue _ := [Char.ofNat 0]
  file p :=
    if p = "/sys/class/switchtec/switchtec0/device/device".toList then
      some (7, "0x8543\n".toList)
    else if p = "/sys/class/switchtec/switchtec1/device/device".toList then
      some (5, "0x54\n".toList)
    else none
  past := 0
  heap := [4096, 8192]

/-- The registry `demoFs` with a slot after the entries that was never written:
it holds a word that is neither `NULL` nor the address of a live block. -/
def staleFs : SysFs := { demoFs with past := 24577 }

/-- The registry `demoFs` with a buffer that held `xyz` where the link target
ends: the target is not followed by a NUL. -/
def junkFs : SysFs := { demoFs with residue := fun _ => ['x', 'y', 'z', Char.ofNat 0] }

/-- Array sizes of 256 bytes for the name, the backing-bus identifier and the
model, and of `PATH_MAX` bytes for the path. -/
def demoSizes : InfoSizes := { name := 256, pci_dev := 256, model := 256, path := 4096 }

/-- The records `switchtec_list` produces for `demoFs`. -/
def demoRecords : List switchtec_device_info :=
  [{ name := "switchtec0".toList, pci_dev := "0000:03:00.1".toList,
     model := "PM8543".toList, path := "/dev/switchtec0".toList },
   { name := "switchtec1".toList, pci_dev := "unknown pci device".toList,
     model := "PM54".toList, path := "/dev/switchtec1".toList }]

/-- The outcome of `switchtec_list` on `demoFs`. -/
def demoResult : ListResult :=
  { ret := 2, devlist := some demoRecords, heap := [4096, 8192] }

/-! ## Theorems -/

/-- The conversion to `int` keeps a value that an `int` can represent. -/
theorem toInt32_of_fits (r : Int) (h : -2 ^ 31 ≤ r ∧ r < 2 ^ 31) : toInt32 r = r := by
  unfold toInt32
  omega

/-- The conversion to `int` of a `uint32_t`: two's complement. -/
theorem toInt32_of_u32 (u : Nat) (h : u < 2 ^ 32) :
    toInt32 (u : Int) = if u < 2 ^ 31 then (u : Int) else (u : Int) - 2 ^ 32 := by
  unfold toInt32
  split <;> omega

/-- The bytes of `u32_bytes`, weighted by the powers of 256, give the number back. -/
theorem u32_bytes_decode (x : Nat) (h : x < 2 ^ 32) :
    (byteOf x).val + 2 ^ 8 * (byteOf (x / 2 ^ 8)).val + 2 ^ 16 * (byteOf (x / 2 ^ 16)).val
      + 2 ^ 24 * (byteOf (x / 2 ^ 24)).val = x := by
  simp only [byteOf]
  omega

/-- The channel after `switchtec_submit_cmd` is the channel after its one write. -/
theorem submit_cmd_wire (ch : Channel σ) (dev : Wire σ) (cmd : Nat) (p : List Byte) :
    (switchtec_submit_cmd ch dev cmd p).2 =
      (sys_write ch dev (u32_bytes (htole32 cmd) ++ p) (p.length + 4)).2 := by
  unfold switchtec_submit_cmd
  simp only
  split
  · rfl
  · split <;> rfl

/-- The value of `switchtec_submit_cmd` in terms of what the write reported. -/
theorem submit_cmd_value (ch : Channel σ) (dev : Wire σ) (cmd : Nat) (p : List Byte) :
    (switchtec_submit_cmd ch dev cmd p).1 =
      (let ret := toInt32 (ch.write dev.st (u32_bytes (htole32 cmd) ++ p) (p.length + 4)).1
       if ret < 0 then ret else if ret ≠ ((p.length + 4 : Nat) : Int) then -EIO_code else 0) := by
  unfold switchtec_submit_cmd
  simp only [sys_write]
  split
  · rfl
  · split <;> rfl

/-- The channel after `switchtec_read_resp` is the channel after its one read. -/
theorem read_resp_wire (ch : Channel σ) (dev : Wire σ) (resp : Option (List Byte))
    (n : Nat) :
    (switchtec_read_resp ch dev resp n).2.2 = (sys_read ch dev (4 + n)).2.2 := by
  unfold switchtec_read_resp
  simp only
  split
  · rfl
  · split
    · rfl
    · cases resp <;> rfl

/-- The value of `switchtec_read_resp` in terms of what the read reported. -/
theorem read_resp_value (ch : Channel σ) (dev : Wire σ) (resp : Option (List Byte))
    (n : Nat) :
    (switchtec_read_resp ch dev resp n).1 =
      (let ret := toInt32 (ch.read dev.st (4 + n)).1
       if ret < 0 then ret else if ret ≠ ((4 + n : Nat) : Int) then -EIO_code
       else i32_of_bytes ((ch.read dev.st (4 + n)).2.1.take (4 + n))) := by
  unfold switchtec_read_resp
  simp only [sys_read]
  split
  · rfl
  · split
    · rfl
    · cases resp <;> rfl

/-- Claim C1. For every 32-bit command id and every payload, `switchtec_submit_cmd`
issues exactly one call on the channel, a write; its buffer is four bytes that
spell the command id least significant byte first, followed by the payload
unchanged, and the length it requests is exactly four plus the payload length.
The payload bound of 1024 bytes is not needed. -/
theorem submit_cmd_single_write (ch : Channel σ) (dev : Wire σ) (cmd : Nat)
    (p : List Byte) (hcmd : cmd < 2 ^ 32) :
    ∃ b0 b1 b2 b3 : Byte,
      b0.val + 2 ^ 8 * b1.val + 2 ^ 16 * b2.val + 2 ^ 24 * b3.val = cmd ∧
      (switchtec_submit_cmd ch dev cmd p).2.log =
        dev.log ++ [Sys.write ([b0, b1, b2, b3] ++ p) (4 + p.length)] := by
  refine ⟨byteOf cmd, byteOf (cmd / 2 ^ 8), byteOf (cmd / 2 ^ 16), byteOf (cmd / 2 ^ 24),
    u32_bytes_decode cmd hcmd, ?_⟩
  have hle : htole32 cmd = cmd := Nat.mod_eq_of_lt hcmd
  rw [submit_cmd_wire, hle]
  simp [sys_write, u32_bytes, Nat.add_comm]

/-- Claim C2. Let `rw` be what the channel reports for the write of
`switchtec_submit_cmd` and `rr` what it reports for the read of
`switchtec_read_resp`, both representable in an `int`. A non-negative count
other than the frame size yields `-EIO`; a negative report is returned as it
is; and `switchtec_submit_cmd` returns 0 exactly when the write reported the
whole frame. -/
theorem short_transfer_is_error (ch : Channel σ) (dev : Wire σ) (cmd : Nat)
    (payload : List Byte) (resp : Option (List Byte)) (len : Nat) (rw rr : Int)
    (hw : (ch.write dev.st (u32_bytes (htole32 cmd) ++ payload) (payload.length + 4)).1 = rw)
    (hr : (ch.read dev.st (4 + len)).1 = rr)
    (hwfit : -2 ^ 31 ≤ rw ∧ rw < 2 ^ 31) (hrfit : -2 ^ 31 ≤ rr ∧ rr < 2 ^ 31) :
    (0 ≤ rw → rw ≠ 4 + payload.length → (switchtec_submit_cmd ch dev cmd payload).1 = -EIO_code) ∧
    (rw < 0 → (switchtec_submit_cmd ch dev cmd payload).1 = rw) ∧
    ((switchtec_submit_cmd ch dev cmd payload).1 = 0 ↔ rw = 4 + payload.length) ∧
    (0 ≤ rr → rr ≠ 4 + len → (switchtec_read_resp ch dev resp len).1 = -EIO_code) ∧
    (rr < 0 → (switchtec_read_resp ch dev resp len).1 = rr) := by
  have hs := submit_cmd_value ch dev cmd payload
  have hrd := read_resp_value ch dev resp len
  rw [hw, toInt32_of_fits rw hwfit] at hs
  rw [hr, toInt32_of_fits rr hrfit] at hrd
  simp only at hs hrd
  rw [hs]
  refine ⟨?_, ?_, ?_, ?_, ?_⟩
  · intro h0 hne
    rw [if_neg (by omega), if_pos (by push_cast; omega)]
  · intro hneg
    rw [if_pos hneg]
  · constructor
    · intro h
      by_contra hne
      by_cases hneg : rw < 0
      · rw [if_pos hneg] at h; omega
      · rw [if_neg hneg, if_pos (by push_cast; omega)] at h
        simp [EIO_code] at h
    · intro h
      rw [if_neg (by omega), if_neg (by push_cast; omega)]
  · intro h0 hne
    rw [hrd, if_neg (by omega), if_pos (by push_cast; omega)]
  · intro hneg
    rw [hrd, if_pos hneg]

/-- Claim C3. When the channel delivers a reply `b` of exactly `4 + expected_len`
bytes (a count representable in an `int`), `switchtec_read_resp` issues exactly
one call, a read of `4 + expected_len` bytes; it returns the first four bytes of
`b` read as a little-endian two's complement 32-bit number; a supplied buffer has
its first `expected_len` bytes replaced by `b[4 .. 4 + expected_len)` and nothing
else changed; without a buffer nothing is written. -/
theorem read_resp_full_reply (ch : Channel σ) (dev : Wire σ) (resp : Option (List Byte))
    (expected_len : Nat) (b : List Byte) (st' : σ)
    (hread : ch.read dev.st (4 + expected_len) = (((4 + expected_len : Nat) : Int), b, st'))
    (hb : b.length = 4 + expected_len) (hfit : 4 + expected_len < 2 ^ 31) :
    ∃ (b0 b1 b2 b3 : Byte) (rest : List Byte),
      b = b0 :: b1 :: b2 :: b3 :: rest ∧
      (switchtec_read_resp ch dev resp expected_len).1 =
        (if b0.val + 2 ^ 8 * b1.val + 2 ^ 16 * b2.val + 2 ^ 24 * b3.val < 2 ^ 31 then
          ((b0.val + 2 ^ 8 * b1.val + 2 ^ 16 * b2.val + 2 ^ 24 * b3.val : Nat) : Int)
        else
          ((b0.val + 2 ^ 8 * b1.val + 2 ^ 16 * b2.val + 2 ^ 24 * b3.val : Nat) : Int) - 2 ^ 32) ∧
      (switchtec_read_resp ch dev resp expected_len).2.1 =
        resp.map (fun mem => rest ++ mem.drop expected_len) ∧
      (switchtec_read_resp ch dev resp expected_len).2.2.log =
        dev.log ++ [Sys.read (4 + expected_len)] := by
  obtain ⟨b0, b1, b2, b3, rest, rfl⟩ :
      ∃ (b0 b1 b2 b3 : Byte) (rest : List Byte), b = b0 :: b1 :: b2 :: b3 :: rest := by
    match b, hb with
    | b0 :: b1 :: b2 :: b3 :: rest, _ => exact ⟨b0, b1, b2, b3, rest, rfl⟩
    | [], h | [_], h | [_, _], h | [_, _, _], h => simp at h; try omega
  have hrest : rest.length = expected_len := by simp at hb; omega
  have hfits : toInt32 (((4 + expected_len : Nat) : Int)) = ((4 + expected_len : Nat) : Int) :=
    toInt32_of_fits _ (by constructor <;> omega)
  have htake : (b0 :: b1 :: b2 :: b3 :: rest).take (4 + expected_len)
      = b0 :: b1 :: b2 :: b3 :: rest := List.take_of_length_le (by simp; omega)
  refine ⟨b0, b1, b2, b3, rest, rfl, ?_, ?_, ?_⟩
  · rw [read_resp_value, hread]
    simp only [hfits, htake]
    rw [if_neg (by omega), if_neg (by simp)]
    have hu : b0.val + 2 ^ 8 * b1.val + 2 ^ 16 * b2.val + 2 ^ 24 * b3.val < 2 ^ 32 := by
      have := b0.isLt; have := b1.isLt; have := b2.isLt; have := b3.isLt
      omega
    simp only [i32_of_bytes, u32_of_bytes, List.getD_cons_zero, List.getD_cons_succ]
    exact toInt32_of_u32 _ hu
  · unfold switchtec_read_resp
    simp only [sys_read, hread, hfits, htake]
    rw [if_neg (by omega), if_neg (by simp)]
    cases resp with
    | none => rfl
    | some mem =>
      simp only [Option.map_some', memcpy, List.drop_succ_cons, List.drop_zero]
      rw [List.take_of_length_le (by omega)]
  · rw [read_resp_wire]
    rfl

/-- Claim C4. If `switchtec_submit_cmd` returns a negative value, `switchtec_cmd`
returns that value, leaves the response buffer as it was and has issued the
write only; otherwise `switchtec_cmd` is `switchtec_read_resp` on the channel
left by the write, and has issued the write and then one read. -/
theorem cmd_is_submit_then_read (ch : Channel σ) (dev : Wire σ) (cmd : Nat)
    (payload : List Byte) (resp : Option (List Byte)) (resp_len : Nat) :
    ((switchtec_submit_cmd ch dev cmd payload).1 < 0 →
      (switchtec_cmd ch dev cmd payload resp resp_len).1 =
          (switchtec_submit_cmd ch dev cmd payload).1 ∧
        (switchtec_cmd ch dev cmd payload resp resp_len).2.1 = resp ∧
        (switchtec_cmd ch dev cmd payload resp resp_len).2.2.log =
          dev.log ++ [Sys.write (u32_bytes (htole32 cmd) ++ payload) (payload.length + 4)]) ∧
    (¬ (switchtec_submit_cmd ch dev cmd payload).1 < 0 →
      switchtec_cmd ch dev cmd payload resp resp_len =
          switchtec_read_resp ch (switchtec_submit_cmd ch dev cmd payload).2 resp resp_len ∧
        (switchtec_cmd ch dev cmd payload resp resp_len).2.2.log =
          dev.log ++ [Sys.write (u32_bytes (htole32 cmd) ++ payload) (payload.length + 4),
            Sys.read (4 + resp_len)]) := by
  constructor
  · intro h
    have hc : switchtec_cmd ch dev cmd payload resp resp_len =
        ((switchtec_submit_cmd ch dev cmd payload).1, resp,
          (switchtec_submit_cmd ch dev cmd payload).2) := by
      unfold switchtec_cmd
      simp only [if_pos h]
    rw [hc, submit_cmd_wire]
    exact ⟨rfl, rfl, rfl⟩
  · intro h
    have hc : switchtec_cmd ch dev cmd payload resp resp_len =
        switchtec_read_resp ch (switchtec_submit_cmd ch dev cmd payload).2 resp resp_len := by
      unfold switchtec_cmd
      simp only [if_neg h]
    refine ⟨hc, ?_⟩
    rw [hc, read_resp_wire, submit_cmd_wire]
    simp [sys_read, sys_write]

/-- What `echoSim` answers to the request frame of `switchtec_echo`. -/
theorem echoSim_accepts (st : List Byte) (v : Nat) :
    echoSim.write st (u32_bytes (htole32 MRPC_ECHO) ++ u32_bytes v) ((u32_bytes v).length + 4)
      = (8, u32_bytes 0 ++ u32_bytes v) := by
  simp [echoSim, u32_bytes, htole32, MRPC_ECHO]

/-- The simulated device accepts the request of `switchtec_echo`. -/
theorem echo_submit_echoSim (dev : Wire (List Byte)) (v : Nat) :
    switchtec_submit_cmd echoSim dev MRPC_ECHO (u32_bytes v) =
      (0, { st := u32_bytes 0 ++ u32_bytes v,
            log := dev.log ++ [Sys.write (u32_bytes (htole32 MRPC_ECHO) ++ u32_bytes v) 8] }) := by
  unfold switchtec_submit_cmd
  simp only [sys_write, echoSim_accepts]
  have h8 : toInt32 8 = 8 := toInt32_of_fits 8 (by constructor <;> norm_num)
  simp [h8, u32_bytes]

/-- Claim C5, on a host with 8-byte pointers. Against the simulated loopback
device `switchtec_echo` does not succeed: it asks for `4 + sizeof(output) = 12`
bytes, the device delivers its 8-byte reply frame, and the call returns `-EIO`
for every input, leaving the output untouched. -/
theorem echo_fails_on_conformant_device (dev : Wire (List Byte)) (v : Nat)
    (output : Option (List Byte)) :
    (switchtec_echo 8 echoSim dev v output).1 = -EIO_code ∧
    (switchtec_echo 8 echoSim dev v output).2.1 = output ∧
    (switchtec_echo 8 echoSim dev v output).2.2.log =
      dev.log ++ [Sys.write (u32_bytes (htole32 MRPC_ECHO) ++ u32_bytes v) 8, Sys.read 12] := by
  have h8 : toInt32 8 = 8 := toInt32_of_fits 8 (by constructor <;> norm_num)
  have hr : switchtec_echo 8 echoSim dev v output = (-EIO_code, output,
      { st := [], log := dev.log ++
        [Sys.write (u32_bytes (htole32 MRPC_ECHO) ++ u32_bytes v) 8, Sys.read 12] }) := by
    unfold switchtec_echo switchtec_cmd
    rw [echo_submit_echoSim]
    simp only [lt_self_iff_false, if_false]
    unfold switchtec_read_resp
    simp [sys_read, echoSim, u32_bytes, h8]
  rw [hr]
  exact ⟨rfl, rfl, rfl⟩

/-- With `sizeof(output)` equal to 4 the echo round-trip holds on the simulated
device: the call returns status 0 and the caller's `uint32_t` holds the input. -/
theorem echo_roundtrip_ptr4 (dev : Wire (List Byte)) (v : Nat) (mem : List Byte)
    (hv : v < 2 ^ 32) :
    (switchtec_echo 4 echoSim dev v (some mem)).1 = 0 ∧
    ∃ out, (switchtec_echo 4 echoSim dev v (some mem)).2.1 = some out ∧
      u32_of_bytes out = v ∧ out.drop 4 = mem.drop 4 := by
  have h8 : toInt32 8 = 8 := toInt32_of_fits 8 (by constructor <;> norm_num)
  have h0 : toInt32 0 = 0 := toInt32_of_fits 0 (by constructor <;> norm_num)
  have hr : switchtec_echo 4 echoSim dev v (some mem) = (0, some (u32_bytes v ++ mem.drop 4),
      { st := [], log := dev.log ++
        [Sys.write (u32_bytes (htole32 MRPC_ECHO) ++ u32_bytes v) 8, Sys.read 8] }) := by
    unfold switchtec_echo switchtec_cmd
    rw [echo_submit_echoSim]
    simp only [lt_self_iff_false, if_false]
    unfold switchtec_read_resp
    simp [sys_read, echoSim, u32_bytes, h8, h0, i32_of_bytes, u32_of_bytes, memcpy, byteOf]
  rw [hr]
  refine ⟨rfl, _, rfl, ?_, ?_⟩
  · simp only [u32_bytes, u32_of_bytes, List.cons_append, List.nil_append,
      List.getD_cons_zero, List.getD_cons_succ]
    exact u32_bytes_decode v hv
  · simp [u32_bytes]

/-- The bytes of the echo command code. -/
theorem echo_code_bytes : u32_bytes (htole32 MRPC_ECHO) = [65, 0, 0, 0] := by decide

/-- Claim C6, on a host with 8-byte pointers. `switchtec_echo` sends the command
id 65 and the four bytes of the value, but then requests 12 bytes, not 8; when
the device delivers 12 bytes, 8 bytes are copied to the memory at `output`, so
the 4 bytes that follow the caller's `uint32_t` are overwritten. -/
theorem echo_reads_twelve_bytes (v : Nat) (reply mem : List Byte)
    (hreply : reply.length = 12) :
    (switchtec_echo 8 (constChan 8 reply) ⟨(), []⟩ v (some mem)).2.2.log =
      [Sys.write ([65, 0, 0, 0] ++ u32_bytes v) 8, Sys.read 12] ∧
    (switchtec_echo 8 (constChan 8 reply) ⟨(), []⟩ v (some mem)).2.1 =
      some (reply.drop 4 ++ mem.drop 8) := by
  have h8 : toInt32 8 = 8 := toInt32_of_fits 8 (by constructor <;> norm_num)
  have h12 : toInt32 ((12 : Nat) : Int) = 12 := toInt32_of_fits 12 (by constructor <;> norm_num)
  have hs : switchtec_submit_cmd (constChan 8 reply) ⟨(), []⟩ MRPC_ECHO (u32_bytes v) =
      (0, { st := (), log := [Sys.write ([65, 0, 0, 0] ++ u32_bytes v) 8] }) := by
    unfold switchtec_submit_cmd
    simp only [sys_write, constChan, h8, echo_code_bytes]
    simp [u32_bytes]
  have hr : switchtec_read_resp (constChan 8 reply)
      { st := (), log := [Sys.write ([65, 0, 0, 0] ++ u32_bytes v) 8] } (some mem) 8 =
      (i32_of_bytes reply, some (reply.drop 4 ++ mem.drop 8),
        { st := (), log := [Sys.write ([65, 0, 0, 0] ++ u32_bytes v) 8, Sys.read 12] }) := by
    unfold switchtec_read_resp
    simp only [sys_read, constChan, hreply, h12, Nat.reduceAdd]
    rw [List.take_of_length_le (le_of_eq hreply)]
    have hd : (reply.drop 4).take 8 = reply.drop 4 :=
      List.take_of_length_le (by rw [List.length_drop, hreply])
    simp only [memcpy, hd]
    rw [if_neg (by norm_num), if_neg (by norm_num)]
    rfl
  have he : switchtec_echo 8 (constChan 8 reply) ⟨(), []⟩ v (some mem) =
      (i32_of_bytes reply, some (reply.drop 4 ++ mem.drop 8),
        { st := (), log := [Sys.write ([65, 0, 0, 0] ++ u32_bytes v) 8, Sys.read 12] }) := by
    unfold switchtec_echo switchtec_cmd
    simp only [hs, lt_self_iff_false, if_false, hr]
  rw [he]
  exact ⟨rfl, rfl⟩

/-- The descriptor `lowestFree` picks is not in use. -/
theorem lowestFree_not_mem (used : List Nat) : lowestFree used ∉ used := by
  unfold lowestFree
  cases hf : (List.range (used.length + 1)).find? (fun k => decide (k ∉ used)) with
  | some k =>
    have := List.find?_some hf
    simpa using this
  | none =>
    exfalso
    rw [List.find?_eq_none] at hf
    have hsub : List.range (used.length + 1) ⊆ used := by
      intro k hk
      have := hf k hk
      simpa using this
    have hle := ((List.nodup_range (used.length + 1)).subperm hsub).length_le
    simp at hle

/-- Closing the descriptor that `open` has just returned restores the table. -/
theorem close_after_open (h : Host) (os : OS) (path : List Char)
    (ho : h.open_error path = none) (e : Int) :
    (sys_close { (sys_open h os path).2 with errno := e } (sys_open h os path).1.toNat).2.fds
      = os.fds := by
  have hfresh := lowestFree_not_mem (os.fds.map Prod.fst)
  simp only [sys_open, ho, sys_close, Int.toNat_ofNat, List.map_cons, List.mem_cons, true_or,
    if_true, List.filter_cons, ne_eq, not_true_eq_false, decide_False]
  simp only [Bool.false_eq_true, if_false]
  rw [List.filter_eq_self]
  intro a ha
  have : a.1 ∈ os.fds.map Prod.fst := List.mem_map_of_mem _ ha
  simp only [decide_eq_true_eq]
  intro heq
  exact hfresh (heq ▸ this)

/-- The function `check_device` changes nothing but `errno`. -/
theorem check_device_fds (h : Host) (os : OS) (fd : Nat) :
    (check_device h os fd).2 = { os with errno := (check_device h os fd).2.errno } := by
  unfold check_device
  split
  · rfl
  · split
    · rfl
    · split <;> rfl

/-- Claim C7. If the node opens and `fstat` gives its identity but the management
path of that identity does not exist, `switchtec_open` returns no handle, `errno`
is `ENOTTY`, and the open channels are those of before the call. More generally,
whenever `switchtec_open` returns no handle the open channels (and so their
count) are those of before the call. -/
theorem open_failure_leaves_no_channel (h : Host) (os : OS) (path : List Char) :
    (∀ major minor : Nat, h.malloc_ok = true → h.open_error path = none →
      h.fstat path = Except.ok (major, minor) → h.access (check_path major minor) = false →
      (switchtec_open h os path).1 = none ∧
      (switchtec_open h os path).2.errno = ENOTTY_code ∧
      (switchtec_open h os path).2.fds = os.fds) ∧
    ((switchtec_open h os path).1 = none →
      (switchtec_open h os path).2.fds = os.fds ∧
      (switchtec_open h os path).2.fds.length = os.fds.length) := by
  constructor
  · intro major minor hm ho hf ha
    have hopen : sys_open h os path = (((lowestFree (os.fds.map Prod.fst) : Nat) : Int),
        { os with fds := (lowestFree (os.fds.map Prod.fst), path) :: os.fds }) := by
      simp only [sys_open, ho]
    have hchk : check_device h (sys_open h os path).2 (sys_open h os path).1.toNat =
        (-1, { (sys_open h os path).2 with errno := ENOTTY_code }) := by
      rw [hopen]
      simp [check_device, List.lookup, hf, ha]
    have hres : switchtec_open h os path =
        (none, (sys_close { (sys_open h os path).2 with errno := ENOTTY_code }
          (sys_open h os path).1.toNat).2) := by
      unfold switchtec_open
      simp only [hm, Bool.true_eq_false, if_false, hchk]
      rw [if_neg (by rw [hopen]; simp), if_pos (by decide)]
    refine ⟨by rw [hres], ?_, ?_⟩
    · rw [hres, hopen]
      simp [sys_close]
    · rw [hres]
      exact close_after_open h os path ho _
  · intro hnone
    by_cases hm : h.malloc_ok = false
    · have : switchtec_open h os path = (none, { os with errno := ENOMEM_code }) := by
        unfold switchtec_open
        simp only [hm, if_true]
      rw [this]
      exact ⟨rfl, rfl⟩
    · cases ho : h.open_error path with
      | some e =>
        have : switchtec_open h os path = (none, { os with errno := e }) := by
          unfold switchtec_open
          simp [hm, sys_open, ho]
        rw [this]
        exact ⟨rfl, rfl⟩
      | none =>
        have hopen1 : ¬ (sys_open h os path).1 < 0 := by
          simp [sys_open, ho]
        by_cases hc : (check_device h (sys_open h os path).2 (sys_open h os path).1.toNat).1 ≠ 0
        · have hres : switchtec_open h os path =
              (none, (sys_close (check_device h (sys_open h os path).2
                (sys_open h os path).1.toNat).2 (sys_open h os path).1.toNat).2) := by
            unfold switchtec_open
            simp only [hm, Bool.true_eq_false, if_false, hopen1, hc, if_true, ne_eq, not_false_eq_true]
          have hfds : (switchtec_open h os path).2.fds = os.fds := by
            rw [hres, check_device_fds]
            exact close_after_open h os path ho _
          exact ⟨hfds, by rw [hfds]⟩
        · exfalso
          have hres : (switchtec_open h os path).1 = some { fd := (sys_open h os path).1.toNat } := by
            unfold switchtec_open
            simp only [hm, Bool.true_eq_false, if_false, hopen1, hc]
          rw [hres] at hnone
          exact Option.noConfusion hnone

/-- A successful `switchtec_open` returns a handle on a descriptor that was not
open before and adds exactly that channel, open on `path`. -/
theorem open_success_adds_channel (h : Host) (os : OS) (path : List Char) (dev : switchtec_dev)
    (hs : (switchtec_open h os path).1 = some dev) :
    dev.fd ∉ os.fds.map Prod.fst ∧ (switchtec_open h os path).2.fds = (dev.fd, path) :: os.fds := by
  by_cases hm : h.malloc_ok = false
  · exfalso
    have : (switchtec_open h os path).1 = none := by
      unfold switchtec_open
      simp only [hm, if_true]
    rw [this] at hs
    exact Option.noConfusion hs
  · cases ho : h.open_error path with
    | some e =>
      exfalso
      have : (switchtec_open h os path).1 = none := by
        unfold switchtec_open
        simp [hm, sys_open, ho]
      rw [this] at hs
      exact Option.noConfusion hs
    | none =>
      have hopen : sys_open h os path = (((lowestFree (os.fds.map Prod.fst) : Nat) : Int),
          { os with fds := (lowestFree (os.fds.map Prod.fst), path) :: os.fds }) := by
        simp only [sys_open, ho]
      have hopen1 : ¬ (sys_open h os path).1 < 0 := by
        simp [sys_open, ho]
      by_cases hc : (check_device h (sys_open h os path).2 (sys_open h os path).1.toNat).1 ≠ 0
      · exfalso
        have : (switchtec_open h os path).1 = none := by
          unfold switchtec_open
          simp only [hm, Bool.true_eq_false, if_false, hopen1, hc, if_true, ne_eq, not_false_eq_true]
        rw [this] at hs
        exact Option.noConfusion hs
      · have hres : switchtec_open h os path = (some { fd := (sys_open h os path).1.toNat },
            (check_device h (sys_open h os path).2 (sys_open h os path).1.toNat).2) := by
          unfold switchtec_open
          simp only [hm, Bool.true_eq_false, if_false, hopen1, hc]
        rw [hres] at hs ⊢
        have hd : dev.fd = lowestFree (os.fds.map Prod.fst) := by
          have := Option.some.inj hs
          rw [← this, hopen]
          simp
        refine ⟨hd ▸ lowestFree_not_mem _, ?_⟩
        rw [check_device_fds, hd, hopen]

/-- The order of `alphasort` is total. -/
theorem alphasort_total (a b : List Char) : alphasort a b ∨ alphasort b a := by
  unfold alphasort
  induction a generalizing b with
  | nil => cases b <;> simp [strcmp]
  | cons x xs ih =>
    cases b with
    | nil => simp [strcmp]
    | cons y ys =>
      simp only [strcmp]
      have := ih ys
      split_ifs <;> omega

/-- The order of `alphasort` is transitive. -/
theorem alphasort_trans (a b c : List Char) (hab : alphasort a b) (hbc : alphasort b c) :
    alphasort a c := by
  unfold alphasort at *
  induction a generalizing b c with
  | nil => cases c <;> simp [strcmp]
  | cons x xs ih =>
    cases b with
    | nil => simp [strcmp] at hab
    | cons y ys =>
      cases c with
      | nil => simp [strcmp] at hbc
      | cons z zs =>
        simp only [strcmp] at hab hbc ⊢
        have := ih ys zs
        split_ifs at hab hbc ⊢ <;> omega

/-- The entries `scandir` returns are in the order of `alphasort`. -/
theorem scandir_sorted (l : List (List Char)) : (l.insertionSort alphasort).Sorted alphasort :=
  @List.sorted_insertionSort _ alphasort _ ⟨alphasort_total⟩ ⟨alphasort_trans⟩ l

/-- A text shorter than the array is stored whole by `snprintf`. -/
theorem snprintf_fits (size : Nat) (s : List Char) (h : s.length < size) :
    snprintf size s = s := by
  unfold snprintf
  exact List.take_of_length_le (by omega)

/-- The filter `scan_dev_filter` keeps the names that do not begin with a dot. -/
theorem scan_dev_filter_visible (d : List Char) :
    decide (scan_dev_filter d ≠ 0) = decide (d.head? ≠ some '.') := by
  unfold scan_dev_filter
  split <;> simp_all

/-- The outcome of `scandir` on a readable directory. -/
theorem scandir_of_dir (fs : SysFs) (entries : List (List Char)) (hdir : fs.dir = some entries) :
    scandir fs scan_dev_filter =
      ((((entries.filter (fun e => e.head? ≠ some '.')).insertionSort alphasort).length : Int),
        (entries.filter (fun e => e.head? ≠ some '.')).insertionSort alphasort) := by
  have hf : entries.filter (fun d => scan_dev_filter d ≠ 0)
      = entries.filter (fun e => e.head? ≠ some '.') :=
    List.filter_congr (fun d _ => scan_dev_filter_visible d)
  simp only [scandir, hdir, hf]

/-- The call `free(NULL)` does nothing. -/
theorem free_null (heap : List Nat) : free heap 0 = some heap := by
  simp [free]

/-- The call `free` on a word that is neither `NULL` nor a live block is
undefined. -/
theorem free_stale (heap : List Nat) (p : Nat) (h0 : p ≠ 0) (hn : p ∉ heap) :
    free heap p = none := by
  simp [free, h0, hn]

/-- With `NULL` in the slot after the entries the main loop fills one record per
entry and leaves the heap as it was. -/
theorem list_loop_null (fs : SysFs) (sz : InfoSizes) (hpast : fs.past = 0)
    (ds : List (List Char)) (heap : List Nat) :
    list_loop fs sz ds heap = some (ds.map (list_entry fs sz), heap) := by
  induction ds with
  | nil => rfl
  | cons d ds ih => simp only [list_loop, hpast, free_null, ih, List.map_cons]

/-- The records of the main loop, when it completes, are the loop body applied
to each entry in turn. -/
theorem list_loop_records (fs : SysFs) (sz : InfoSizes) (ds : List (List Char)) :
    ∀ (heap : List Nat) (recs : List switchtec_device_info) (h : List Nat),
      list_loop fs sz ds heap = some (recs, h) → recs = ds.map (list_entry fs sz) := by
  induction ds with
  | nil =>
    intro heap recs h hl
    simp only [list_loop, Option.some.injEq, Prod.mk.injEq] at hl
    rw [← hl.1]
    rfl
  | cons d ds ih =>
    intro heap recs h hl
    simp only [list_loop] at hl
    cases hf : free heap fs.past with
    | none => simp [hf] at hl
    | some h1 =>
      simp only [hf] at hl
      cases hr : list_loop fs sz ds h1 with
      | none => simp [hr] at hl
      | some pr =>
        obtain ⟨rs, h2⟩ := pr
        simp only [hr, Option.some.injEq, Prod.mk.injEq] at hl
        rw [← hl.1, ih h1 rs h2 hr]
        rfl

/-- The array `switchtec_list` hands over is the loop body applied to each
selected entry, in the order of `scandir`, and the value returned is their
number. -/
theorem list_records (fs : SysFs) (sz : InfoSizes) (r : ListResult)
    (recs : List switchtec_device_info) (h : switchtec_list fs sz = some r)
    (hrecs : r.devlist = some recs) :
    recs = (scandir fs scan_dev_filter).2.map (list_entry fs sz) ∧
    r.ret = ((scandir fs scan_dev_filter).2.length : Int) := by
  unfold switchtec_list at h
  simp only at h
  split_ifs at h with h1 h2
  · simp only [Option.some.injEq] at h
    rw [← h] at hrecs
    exact Option.noConfusion hrecs
  · cases hf : free_loop fs.past (scandir fs scan_dev_filter).1.toNat fs.heap with
    | none => simp [hf] at h
    | some hp =>
      simp only [hf, Option.some.injEq] at h
      rw [← h] at hrecs
      exact Option.noConfusion hrecs
  · cases hl : list_loop fs sz (scandir fs scan_dev_filter).2 fs.heap with
    | none => simp [hl] at h
    | some pr =>
      obtain ⟨rs, hp⟩ := pr
      simp only [hl, Option.some.injEq] at h
      rw [← h] at hrecs ⊢
      simp only [Option.some.injEq] at hrecs
      refine ⟨?_, ?_⟩
      · rw [← hrecs]
        exact list_loop_records fs sz _ _ _ _ hl
      · unfold scandir at h1 ⊢
        cases hdir : fs.dir with
        | none => simp [hdir] at h1
        | some es => simp

/-- The outcome of `switchtec_list` on a readable directory when the allocation
succeeds and the slot after the entries holds `NULL`. -/
theorem list_of_dir (fs : SysFs) (sz : InfoSizes) (entries : List (List Char))
    (hdir : fs.dir = some entries) (halloc : fs.calloc_ok = true) (hpast : fs.past = 0) :
    ∃ r, switchtec_list fs sz = some r ∧
      r.ret = (((entries.filter (fun e => e.head? ≠ some '.')).insertionSort
        alphasort).length : Int) ∧
      r.devlist.getD [] = ((entries.filter (fun e => e.head? ≠ some '.')).insertionSort
        alphasort).map (list_entry fs sz) ∧
      r.heap = fs.heap := by
  have hscan := scandir_of_dir fs entries hdir
  unfold switchtec_list
  simp only [hscan, halloc, list_loop_null fs sz hpast]
  cases (entries.filter (fun e => e.head? ≠ some '.')).insertionSort alphasort with
  | nil =>
    refine ⟨{ ret := 0, devlist := none, heap := fs.heap }, ?_, rfl, rfl, rfl⟩
    simp
  | cons d ds =>
    rw [if_neg (by simp only [List.length_cons]; omega), if_neg (by simp)]
    exact ⟨_, rfl, rfl, rfl, rfl⟩

/-- The loop of the allocation-failure path is undefined as soon as it runs once
on a word that is neither `NULL` nor a live block. -/
theorem free_loop_stale (past : Nat) (k : Nat) (heap : List Nat) (h0 : past ≠ 0)
    (hn : past ∉ heap) : free_loop past (k + 1) heap = none := by
  simp only [free_loop, free_stale heap past h0 hn]

/-- Claim C8. The code frees `devices[n]`, the slot after the `n` entries of the
vector of `scandir`, in every turn of its loops. For every readable management
directory with at least one visible entry, when that slot holds a word that is
neither `NULL` nor the address of a live block, the call has undefined
behaviour: no count and no record is returned. -/
theorem list_frees_slot_past_entries (fs : SysFs) (sz : InfoSizes)
    (entries : List (List Char)) (hdir : fs.dir = some entries)
    (hvis : ∃ e ∈ entries, e.head? ≠ some '.') (h0 : fs.past ≠ 0)
    (hn : fs.past ∉ fs.heap) :
    switchtec_list fs sz = none := by
  have hscan := scandir_of_dir fs entries hdir
  have hpos : 0 < ((entries.filter (fun e => e.head? ≠ some '.')).insertionSort
      alphasort).length := by
    rw [List.length_insertionSort]
    obtain ⟨e, he, hv⟩ := hvis
    exact List.length_pos_of_mem (List.mem_filter.mpr ⟨he, by simpa using hv⟩)
  unfold switchtec_list
  simp only [hscan]
  cases hD : (entries.filter (fun e => e.head? ≠ some '.')).insertionSort alphasort with
  | nil =>
    rw [hD] at hpos
    exact absurd hpos (by simp)
  | cons d ds =>
    rw [if_neg (by simp only [List.length_cons]; omega)]
    split_ifs
    · have : ((((d :: ds).length : Nat) : Int)).toNat = ds.length + 1 := by simp
      rw [this, free_loop_stale fs.past ds.length fs.heap h0 hn]
    · simp only [list_loop, free_stale fs.heap fs.past h0 hn]

/-- With `NULL` in the slot after the entries: for a readable management
directory whose entry names are non-empty and fit the name and path arrays, and
when the result array can be allocated, `switchtec_list` returns the number of
entries that do not begin with a dot and hands over as many records; the record
names are those entries, in the order of `alphasort`; every record has a
non-empty name and the path `/dev/` followed by its name. Without hidden entries
the value is the number of entries, and for an empty directory it is 0. -/
theorem list_visible_entries_of_null_slot (fs : SysFs) (sz : InfoSizes)
    (entries : List (List Char)) (hdir : fs.dir = some entries)
    (halloc : fs.calloc_ok = true) (hpast : fs.past = 0)
    (hnonempty : ∀ e ∈ entries, e ≠ [])
    (hname : ∀ e ∈ entries, e.length < sz.name)
    (hpath : ∀ e ∈ entries, 5 + e.length < sz.path) :
    ∃ r, switchtec_list fs sz = some r ∧
      r.ret = ((entries.filter (fun e => e.head? ≠ some '.')).length : Int) ∧
      (r.devlist.getD []).length = (entries.filter (fun e => e.head? ≠ some '.')).length ∧
      ((r.devlist.getD []).map (fun x => x.name)).Perm
        (entries.filter (fun e => e.head? ≠ some '.')) ∧
      ((r.devlist.getD []).map (fun x => x.name)).Sorted alphasort ∧
      (∀ x ∈ r.devlist.getD [], x.name ≠ [] ∧ x.path = ['/', 'd', 'e', 'v', '/'] ++ x.name) ∧
      ((∀ e ∈ entries, e.head? ≠ some '.') → r.ret = (entries.length : Int)) ∧
      (entries = [] → r.ret = 0) := by
  obtain ⟨r, hr, hval, hrecs, _⟩ := list_of_dir fs sz entries hdir halloc hpast
  have hlen : ((entries.filter (fun e => e.head? ≠ some '.')).insertionSort alphasort).length
      = (entries.filter (fun e => e.head? ≠ some '.')).length := List.length_insertionSort _ _
  have hperm := List.perm_insertionSort alphasort (entries.filter (fun e => e.head? ≠ some '.'))
  have hsorted := scandir_sorted (entries.filter (fun e => e.head? ≠ some '.'))
  have hmem : ∀ d ∈ (entries.filter (fun e => e.head? ≠ some '.')).insertionSort alphasort,
      d ∈ entries := fun d hd => List.mem_of_mem_filter (hperm.subset hd)
  have hnames : ((entries.filter (fun e => e.head? ≠ some '.')).insertionSort alphasort).map
      ((fun x => x.name) ∘ list_entry fs sz)
      = (entries.filter (fun e => e.head? ≠ some '.')).insertionSort alphasort := by
    conv_rhs => rw [← List.map_id ((entries.filter
      (fun e => e.head? ≠ some '.')).insertionSort alphasort)]
    apply List.map_congr_left
    intro d hd
    exact snprintf_fits _ _ (hname d (hmem d hd))
  rw [hlen] at hval
  refine ⟨r, hr, hval, ?_, ?_, ?_, ?_, ?_, ?_⟩
  · rw [hrecs, List.length_map, hlen]
  · rw [hrecs, List.map_map, hnames]
    exact hperm
  · rw [hrecs, List.map_map, hnames]
    exact hsorted
  · intro x hx
    rw [hrecs, List.mem_map] at hx
    obtain ⟨d, hd, rfl⟩ := hx
    have hde := hmem d hd
    have h1 : (list_entry fs sz d).name = d := snprintf_fits _ _ (hname d hde)
    have h2 : (list_entry fs sz d).path = ['/', 'd', 'e', 'v', '/'] ++ d :=
      snprintf_fits _ _ (by
        have := hpath d hde
        simp only [List.length_append]
        exact this)
    rw [h1, h2]
    exact ⟨hnonempty d hde, rfl⟩
  · intro hall
    rw [hval, List.filter_eq_self.mpr (fun e he => by simpa using hall e he)]
  · intro hnil
    rw [hval, hnil]
    rfl

/-- The conversion to `int` lands in the range of `int`. -/
theorem toInt32_range (x : Int) : -2 ^ 31 ≤ toInt32 x ∧ toInt32 x < 2 ^ 31 := by
  unfold toInt32
  omega

/-- The digit characters of `%X`. -/
theorem hexDigit_table : ∀ d, d < 16 → hexDigit d = "0123456789ABCDEF".toList.getD d '0' := by
  decide

/-- The digits of `%X` are at most as many as allowed. -/
theorem fmt_X_digits_length (k n : Nat) : (fmt_X_digits k n).length ≤ k := by
  induction k generalizing n with
  | zero => simp [fmt_X_digits]
  | succ k ih =>
    unfold fmt_X_digits
    split
    · simp
    · have := ih (n / 16)
      simp only [List.length_append, List.length_singleton]
      omega

/-- The digits of `%X` are the base-16 digits of the number, most significant
first. -/
theorem fmt_X_digits_eq (k n : Nat) (hn : 0 < n) (hk : n < 16 ^ k) :
    fmt_X_digits k n = (Nat.digits 16 n).reverse.map hexDigit := by
  induction k generalizing n with
  | zero => simp at hk; omega
  | succ k ih =>
    unfold fmt_X_digits
    split
    · rename_i hlt
      rw [Nat.digits_of_lt 16 n (by omega) hlt]
      rfl
    · rename_i hge
      have hdiv : n / 16 < 16 ^ k := by
        rw [Nat.div_lt_iff_lt_mul (by norm_num)]
        rw [pow_succ] at hk
        exact hk
      rw [ih (n / 16) (by omega) hdiv, Nat.digits_def' (by norm_num) hn]
      simp

/-- The model string of a record, from the integer read for its entry. -/
theorem list_entry_model (fs : SysFs) (sz : InfoSizes) (d : List Char) (hsz : 11 ≤ sz.model) :
    (0 < sysfs_read_int fs (model_file d) →
      (list_entry fs sz d).model = ['P', 'M'] ++
        (Nat.digits 16 (sysfs_read_int fs (model_file d)).toNat).reverse.map hexDigit) ∧
    (sysfs_read_int fs (model_file d) ≤ 0 →
      (list_entry fs sz d).model = ['u', 'n', 'k', 'n', 'o', 'w', 'n']) := by
  constructor
  · intro hpos
    have hlt : sysfs_read_int fs (model_file d) < 2 ^ 31 := by
      unfold sysfs_read_int at hpos ⊢
      simp only at hpos ⊢
      split_ifs at hpos ⊢ with h1
      · omega
      · exact (toInt32_range _).2
    have hmod : (sysfs_read_int fs (model_file d) % 2 ^ 32).toNat
        = (sysfs_read_int fs (model_file d)).toNat := by
      rw [Int.emod_eq_of_lt (by omega) (by omega)]
    have hm : (list_entry fs sz d).model = snprintf sz.model
        (['P', 'M'] ++ fmt_X (sysfs_read_int fs (model_file d))) := by
      simp only [list_entry, gt_iff_lt, hpos, if_true]
      rfl
    have hlen := fmt_X_digits_length 8 (sysfs_read_int fs (model_file d)).toNat
    have hfit : (['P', 'M'] ++ fmt_X_digits 8 (sysfs_read_int fs (model_file d)).toNat).length
        < sz.model := by
      simp only [List.length_append, List.length_cons, List.length_nil]
      omega
    rw [hm, fmt_X, hmod, snprintf_fits _ _ hfit, fmt_X_digits_eq 8 _ (by omega) (by omega)]
  · intro hle
    have hm : (list_entry fs sz d).model = snprintf sz.model ['u', 'n', 'k', 'n', 'o', 'w', 'n'] := by
      simp only [list_entry, gt_iff_lt, not_lt.mpr hle, if_false]
      rfl
    have hfit : ['u', 'n', 'k', 'n', 'o', 'w', 'n'].length < sz.model := by
      simp only [List.length_cons, List.length_nil]
      omega
    rw [hm, snprintf_fits _ _ hfit]

/-- Claim C9. When the model array holds at least 11 bytes, every record that
`switchtec_list` hands over has its model determined by the integer `m` that
`sysfs_read_int` returns for the model file of its entry: for `m > 0` the letters
`PM` followed by the base-16 digits of `m`, most significant first and written
with `0`-`9`, `A`-`F`; for `m = 0x54` the string `PM54`; for `m ≤ 0` the string
`unknown`, which is the case when the file cannot be opened or read. -/
theorem list_model_format (fs : SysFs) (sz : InfoSizes) (recs : List switchtec_device_info)
    (out : ListResult) (hsz : 11 ≤ sz.model) (hres : switchtec_list fs sz = some out)
    (hrecs : out.devlist = some recs) :
    List.Forall₂ (fun d r =>
        (0 < sysfs_read_int fs (model_file d) →
          r.model = ['P', 'M'] ++
            (Nat.digits 16 (sysfs_read_int fs (model_file d)).toNat).reverse.map
              (fun x => "0123456789ABCDEF".toList.getD x '0')) ∧
        (sysfs_read_int fs (model_file d) = 0x54 → r.model = ['P', 'M', '5', '4']) ∧
        (sysfs_read_int fs (model_file d) ≤ 0 → r.model = ['u', 'n', 'k', 'n', 'o', 'w', 'n']) ∧
        (fs.file (model_file d) = none → r.model = ['u', 'n', 'k', 'n', 'o', 'w', 'n']) ∧
        (∀ (e : Int) (buf : List Char), fs.file (model_file d) = some (e, buf) →
          -2 ^ 31 ≤ e → e < 0 → r.model = ['u', 'n', 'k', 'n', 'o', 'w', 'n']))
      (scandir fs scan_dev_filter).2 recs := by
  rw [(list_records fs sz out recs hres hrecs).1, List.forall₂_map_right_iff, List.forall₂_same]
  intro d _
  obtain ⟨hpos, hnonpos⟩ := list_entry_model fs sz d hsz
  refine ⟨?_, ?_, hnonpos, ?_, ?_⟩
  · intro h
    rw [hpos h]
    congr 1
    apply List.map_congr_left
    intro x hx
    exact hexDigit_table x (Nat.digits_lt_base (by norm_num) (List.mem_reverse.mp hx))
  · intro h
    have hd : Nat.digits 16 (Int.toNat 0x54) = [4, 5] := by
      have h84 : Int.toNat 0x54 = 84 := rfl
      rw [h84]
      norm_num
    rw [hpos (by omega), h, hd]
    decide
  · intro h
    apply hnonpos
    simp [sysfs_read_int, sysfs_read_str, h]
  · intro e buf h h1 h2
    apply hnonpos
    have : toInt32 e = e := toInt32_of_fits e ⟨h1, by omega⟩
    simp only [sysfs_read_int, sysfs_read_str, h, this, h2, if_true]
    omega

/-- Leading slashes are dropped by `dropWhile`. -/
theorem dropWhile_slashes (k : Nat) (l : List Char) :
    (List.replicate k '/' ++ l).dropWhile (fun c => c = '/') = l.dropWhile (fun c => c = '/') := by
  induction k with
  | zero => rfl
  | succ k ih =>
    rw [List.replicate_succ, List.cons_append, List.dropWhile_cons]
    simp only [decide_True, if_true]
    exact ih

/-- The function `basename` returns the final component of a path, trailing
slashes ignored. -/
theorem basename_final_component (dir comp : List Char) (k : Nat)
    (hdir : dir = [] ∨ dir.getLast? = some '/') (hcomp : comp ≠ []) (hns : '/' ∉ comp) :
    basename (dir ++ comp ++ List.replicate k '/') = comp := by
  have hrev : comp.reverse ≠ [] := by simpa using hcomp
  obtain ⟨c, cs, hc⟩ := List.exists_cons_of_ne_nil hrev
  have hcmem : c ∈ comp := by
    have : c ∈ comp.reverse := by rw [hc]; exact List.mem_cons_self _ _
    exact List.mem_reverse.mp this
  have hcne : c ≠ '/' := fun h => hns (h ▸ hcmem)
  have hprev : (dir ++ comp ++ List.replicate k '/').reverse
      = List.replicate k '/' ++ (dir ++ comp).reverse := by
    rw [List.reverse_append, List.reverse_replicate]
  have hdrop : ((dir ++ comp ++ List.replicate k '/').reverse.dropWhile (fun c => c = '/'))
      = (dir ++ comp).reverse := by
    rw [hprev, dropWhile_slashes, List.reverse_append, hc]
    simp [List.dropWhile, hcne]
  have htake : (dir ++ comp).reverse.takeWhile (fun c => c ≠ '/') = comp.reverse := by
    rw [List.reverse_append, List.takeWhile_append_of_pos]
    · have : dir.reverse.takeWhile (fun c => c ≠ '/') = [] := by
        rcases hdir with h | h
        · simp [h]
        · obtain ⟨ds, hds⟩ : ∃ ds, dir = ds ++ ['/'] := by
            have hne : dir ≠ [] := by
              intro h0
              simp [h0] at h
            refine ⟨dir.dropLast, ?_⟩
            have hl := List.dropLast_append_getLast hne
            have : dir.getLast hne = '/' := by
              rw [List.getLast?_eq_getLast _ hne] at h
              exact Option.some.inj h
            rw [this] at hl
            exact hl.symm
          rw [hds]
          simp [List.takeWhile]
      rw [this, List.append_nil]
    · intro a ha
      have : a ∈ comp := List.mem_reverse.mp ha
      simp only [ne_eq, decide_eq_true_eq]
      exact fun h => hns (h ▸ this)
  have hne : dir ++ comp ++ List.replicate k '/' ≠ [] := by simp [hcomp]
  have hne2 : dir ++ comp ≠ [] := by simp [hcomp]
  unfold basename
  simp only [hdrop, htake, List.reverse_reverse, hne, hne2, if_false]

/-- The function `basename` returns `/` for a path of slashes only. -/
theorem basename_slashes (k : Nat) : basename (List.replicate (k + 1) '/') = ['/'] := by
  have hdrop : (List.replicate (k + 1) '/').reverse.dropWhile (fun c => c = '/') = [] := by
    rw [List.reverse_replicate]
    have := dropWhile_slashes (k + 1) []
    simp only [List.append_nil, List.dropWhile_nil] at this
    exact this
  have hne : List.replicate (k + 1) '/' ≠ [] := by simp [List.replicate_succ]
  unfold basename
  simp only [hdrop, List.reverse_nil, hne, if_false, if_true]

/-- The C string in a buffer that holds `s`, free of NUL, followed by nothing or
by a NUL. -/
theorem cstr_terminated (s rest : List Char) (hs : Char.ofNat 0 ∉ s)
    (hrest : rest = [] ∨ rest.head? = some (Char.ofNat 0)) : cstr (s ++ rest) = s := by
  unfold cstr
  rw [List.takeWhile_append_of_pos]
  · have : rest.takeWhile (fun c => c ≠ Char.ofNat 0) = [] := by
      rcases hrest with h | h
      · simp [h]
      · cases rest with
        | nil => rfl
        | cons r rs =>
          simp only [List.head?_cons, Option.some.injEq] at h
          simp [List.takeWhile, h]
    rw [this, List.append_nil]
  · intro a ha
    simp only [ne_eq, decide_eq_true_eq]
    exact fun h => hs (h ▸ ha)

/-- The backing-bus identifier of a record, from the link of its entry. -/
theorem list_entry_pci_dev (fs : SysFs) (sz : InfoSizes) (d : List Char) :
    (fs.readlink (device_link d) = none ∨ fs.readlink (device_link d) = some [] →
      (list_entry fs sz d).pci_dev = "unknown pci device".toList.take (sz.pci_dev - 1)) ∧
    (∀ target : List Char, fs.readlink (device_link d) = some target →
      target ≠ [] → Char.ofNat 0 ∉ target.take PATH_MAX →
      (fs.residue (device_link d)).head? = some (Char.ofNat 0) →
      (list_entry fs sz d).pci_dev
        = (basename (target.take PATH_MAX)).take (sz.pci_dev - 1)) := by
  constructor
  · intro h
    rcases h with h | h
    · simp only [list_entry, h]
      rfl
    · simp only [list_entry, h, List.take_nil, List.length_nil, lt_self_iff_false, if_false]
      rfl
  · intro target h hne hnul hres
    have hpos : 0 < (target.take PATH_MAX).length := by
      cases target with
      | nil => exact absurd rfl hne
      | cons t ts => simp [PATH_MAX]
    simp only [list_entry, h, hpos, if_true, cstr_terminated _ _ hnul (Or.inr hres)]
    rfl

/-- Claim C10, as amended. For a readable management directory: when the result
array can be allocated and the slot after the entries holds `NULL`, the call
returns and hands over one record per visible entry; and whenever
`switchtec_list` hands over its array, the value it returns is the number of
visible entries, whatever the links do. A record whose link cannot be resolved
(`readlink` fails or stores nothing) has the identifier `unknown pci device`,
cut to the capacity of the identifier array. A record whose link resolves to a
target that is free of NUL and whose stored bytes, `PATH_MAX` at most, are
followed by a NUL in the buffer has as identifier the final path component of
the stored target, trailing slashes ignored, or `/` when the stored target is
made of slashes only, cut to the capacity of the identifier array. -/
theorem list_unresolved_link_sentinel (fs : SysFs) (sz : InfoSizes)
    (entries : List (List Char)) (hdir : fs.dir = some entries) :
    (fs.calloc_ok = true → fs.past = 0 →
      ∃ out, switchtec_list fs sz = some out ∧
        out.ret = ((entries.filter (fun e => e.head? ≠ some '.')).length : Int) ∧
        (out.devlist.getD []).length
          = (entries.filter (fun e => e.head? ≠ some '.')).length) ∧
    (∀ (out : ListResult) (recs : List switchtec_device_info),
      switchtec_list fs sz = some out → out.devlist = some recs →
      out.ret = ((entries.filter (fun e => e.head? ≠ some '.')).length : Int) ∧
      List.Forall₂ (fun d r =>
          (fs.readlink (device_link d) = none ∨ fs.readlink (device_link d) = some [] →
            r.pci_dev = "unknown pci device".toList.take (sz.pci_dev - 1)) ∧
          (∀ (target dir comp : List Char) (k : Nat),
            fs.readlink (device_link d) = some target → Char.ofNat 0 ∉ target →
            (fs.residue (device_link d)).head? = some (Char.ofNat 0) →
            target.take PATH_MAX = dir ++ comp ++ List.replicate k '/' →
            (dir = [] ∨ dir.getLast? = some '/') → comp ≠ [] → '/' ∉ comp →
            r.pci_dev = comp.take (sz.pci_dev - 1)) ∧
          (∀ (target : List Char) (k : Nat),
            fs.readlink (device_link d) = some target →
            (fs.residue (device_link d)).head? = some (Char.ofNat 0) →
            target.take PATH_MAX = List.replicate (k + 1) '/' →
            r.pci_dev = ['/'].take (sz.pci_dev - 1)))
        ((entries.filter (fun e => e.head? ≠ some '.')).insertionSort alphasort) recs) := by
  have hscan := scandir_of_dir fs entries hdir
  constructor
  · intro halloc hpast
    obtain ⟨out, hout, hval, hrecs, _⟩ := list_of_dir fs sz entries hdir halloc hpast
    rw [List.length_insertionSort] at hval
    refine ⟨out, hout, hval, ?_⟩
    rw [hrecs, List.length_map, List.length_insertionSort]
  · intro out recs hout hrecs
    obtain ⟨hmap, hret⟩ := list_records fs sz out recs hout hrecs
    rw [hscan] at hmap hret
    simp only at hmap hret
    rw [List.length_insertionSort] at hret
    refine ⟨hret, ?_⟩
    rw [hmap, List.forall₂_map_right_iff, List.forall₂_same]
    intro d _
    obtain ⟨hnone, hsome⟩ := list_entry_pci_dev fs sz d
    refine ⟨hnone, ?_, ?_⟩
    · intro target dir comp k h hnul hres hsplit hdir hcomp hns
      have hne : target ≠ [] := by
        intro h0
        rw [h0] at hsplit
        have hl := congrArg List.length hsplit
        have := List.length_pos.mpr hcomp
        simp only [List.take_nil, List.length_nil, List.length_append] at hl
        omega
      rw [hsome target h hne (fun hm => hnul (List.mem_of_mem_take hm)) hres, hsplit,
        basename_final_component dir comp k hdir hcomp hns]
    · intro target k h hres hsplit
      have hne : target ≠ [] := by
        intro h0
        rw [h0] at hsplit
        have hl := congrArg List.length hsplit
        simp at hl
      have hnul : Char.ofNat 0 ∉ target.take PATH_MAX := by
        rw [hsplit]
        intro hm
        exact absurd (List.eq_of_mem_replicate hm) (by decide)
      rw [hsome target h hne hnul hres, hsplit, basename_slashes]

/-- Counterexample to C10 as stated. In the demonstration registry the link of
`switchtec1` cannot be read; `switchtec_list` returns 2 and the identifier of
that record is `unknown pci device`, not `unknown`. In the registry whose buffer
holds `xyz` after the link target, the link of `switchtec0` resolves and the
identifier is not the final component of its target. In the registry whose slot
after the entries was never written the call returns nothing. -/
theorem list_unresolved_link_not_unknown :
    demoFs.readlink (device_link "switchtec1".toList) = none ∧
    (switchtec_list demoFs demoSizes).map
        (fun out => (out.ret, (out.devlist.getD []).map (fun r => (r.name, r.pci_dev)))) =
      some (2, [("switchtec0".toList, "0000:03:00.1".toList),
        ("switchtec1".toList, "unknown pci device".toList)]) ∧
    ¬ (∀ p ∈ List.zip (scandir demoFs scan_dev_filter).2
          (((switchtec_list demoFs demoSizes).bind (fun out => out.devlist)).getD []),
        demoFs.readlink (device_link p.1) = none → p.2.pci_dev = "unknown".toList) ∧
    junkFs.readlink (device_link "switchtec0".toList)
      = some ("../../../".toList ++ "0000:03:00.1".toList) ∧
    (switchtec_list junkFs demoSizes).map
        (fun out => (out.devlist.getD []).map (fun r => (r.name, r.pci_dev))) =
      some [("switchtec0".toList, "0000:03:00.1xyz".toList),
        ("switchtec1".toList, "unknown pci device".toList)] ∧
    switchtec_list staleFs demoSizes = none := by
  decide

/-- Witness of C1: the echo code with a four-byte payload on a channel that
accepts the frame. -/
theorem submit_cmd_single_write_witness :
    MRPC_ECHO < 2 ^ 32 ∧
    ∃ b0 b1 b2 b3 : Byte,
      b0.val + 2 ^ 8 * b1.val + 2 ^ 16 * b2.val + 2 ^ 24 * b3.val = MRPC_ECHO ∧
      (switchtec_submit_cmd (constChan 8 []) demoWire MRPC_ECHO [1, 2, 3, 4]).2.log =
        demoWire.log ++ [Sys.write ([b0, b1, b2, b3] ++ [1, 2, 3, 4]) (4 + [1, 2, 3, 4].length)] :=
  ⟨by decide, submit_cmd_single_write (constChan 8 []) demoWire MRPC_ECHO [1, 2, 3, 4] (by decide)⟩

/-- Witness of C2: a channel that moves three bytes of an eight-byte frame. -/
theorem short_transfer_is_error_witness :
    ((-2 ^ 31 : Int) ≤ 3 ∧ (3 : Int) < 2 ^ 31) ∧
    (switchtec_submit_cmd (constChan 3 [0, 0, 0]) demoWire MRPC_ECHO [1, 2, 3, 4]).1 = -EIO_code ∧
    (switchtec_read_resp (constChan 3 [0, 0, 0]) demoWire none 4).1 = -EIO_code :=
  have h := short_transfer_is_error (constChan 3 [0, 0, 0]) demoWire MRPC_ECHO [1, 2, 3, 4]
    none 4 3 3 rfl rfl (by norm_num) (by norm_num)
  ⟨by norm_num, h.1 (by norm_num) (by norm_num), h.2.2.2.1 (by norm_num) (by norm_num)⟩

/-- Witness of C3: a six-byte reply, status -2 and two payload bytes. -/
theorem read_resp_full_reply_witness :
    4 + 2 < 2 ^ 31 ∧
    ∃ (b0 b1 b2 b3 : Byte) (rest : List Byte),
      demoReply = b0 :: b1 :: b2 :: b3 :: rest ∧
      (switchtec_read_resp (constChan 0 demoReply) demoWire (some [0, 0, 9]) 2).1 =
        (if b0.val + 2 ^ 8 * b1.val + 2 ^ 16 * b2.val + 2 ^ 24 * b3.val < 2 ^ 31 then
          ((b0.val + 2 ^ 8 * b1.val + 2 ^ 16 * b2.val + 2 ^ 24 * b3.val : Nat) : Int)
        else
          ((b0.val + 2 ^ 8 * b1.val + 2 ^ 16 * b2.val + 2 ^ 24 * b3.val : Nat) : Int) - 2 ^ 32) ∧
      (switchtec_read_resp (constChan 0 demoReply) demoWire (some [0, 0, 9]) 2).2.1 =
        (some [0, 0, 9]).map (fun mem => rest ++ mem.drop 2) ∧
      (switchtec_read_resp (constChan 0 demoReply) demoWire (some [0, 0, 9]) 2).2.2.log =
        demoWire.log ++ [Sys.read (4 + 2)] :=
  ⟨by norm_num, read_resp_full_reply (constChan 0 demoReply) demoWire (some [0, 0, 9]) 2
    demoReply () rfl rfl (by norm_num)⟩

/-- Witness of C4: a channel that refuses the write; no read follows. -/
theorem cmd_is_submit_then_read_witness :
    (switchtec_submit_cmd (constChan (-1) []) demoWire MRPC_ECHO [1, 2, 3, 4]).1 < 0 ∧
    (switchtec_cmd (constChan (-1) []) demoWire MRPC_ECHO [1, 2, 3, 4] (some [9, 9]) 2).1 =
      (switchtec_submit_cmd (constChan (-1) []) demoWire MRPC_ECHO [1, 2, 3, 4]).1 ∧
    (switchtec_cmd (constChan (-1) []) demoWire MRPC_ECHO [1, 2, 3, 4] (some [9, 9]) 2).2.1 =
      some [9, 9] ∧
    (switchtec_cmd (constChan (-1) []) demoWire MRPC_ECHO [1, 2, 3, 4] (some [9, 9]) 2).2.2.log =
      demoWire.log ++ [Sys.write (u32_bytes (htole32 MRPC_ECHO) ++ [1, 2, 3, 4])
        ([1, 2, 3, 4].length + 4)] :=
  ⟨by decide, (cmd_is_submit_then_read (constChan (-1) []) demoWire MRPC_ECHO [1, 2, 3, 4]
    (some [9, 9]) 2).1 (by decide)⟩

/-- Witness of C6: a device that delivers twelve bytes; the four bytes after the
caller's `uint32_t` are overwritten. -/
theorem echo_reads_twelve_bytes_witness :
    ([0, 0, 0, 0, 1, 2, 3, 4, 5, 6, 7, 8] : List Byte).length = 12 ∧
    (switchtec_echo 8 (constChan 8 [0, 0, 0, 0, 1, 2, 3, 4, 5, 6, 7, 8]) ⟨(), []⟩ 0x12345678
        (some [0, 0, 0, 0, 9, 9, 9, 9])).2.2.log =
      [Sys.write ([65, 0, 0, 0] ++ u32_bytes 0x12345678) 8, Sys.read 12] ∧
    (switchtec_echo 8 (constChan 8 [0, 0, 0, 0, 1, 2, 3, 4, 5, 6, 7, 8]) ⟨(), []⟩ 0x12345678
        (some [0, 0, 0, 0, 9, 9, 9, 9])).2.1 =
      some (([0, 0, 0, 0, 1, 2, 3, 4, 5, 6, 7, 8] : List Byte).drop 4
        ++ ([0, 0, 0, 0, 9, 9, 9, 9] : List Byte).drop 8) :=
  ⟨rfl, echo_reads_twelve_bytes 0x12345678 [0, 0, 0, 0, 1, 2, 3, 4, 5, 6, 7, 8]
    [0, 0, 0, 0, 9, 9, 9, 9] rfl⟩

/-- Witness of C7: a node that opens but whose identity 1:3 has no management
path. -/
theorem open_failure_leaves_no_channel_witness :
    (demoHost.malloc_ok = true ∧ demoHost.open_error "/dev/null".toList = none ∧
      demoHost.fstat "/dev/null".toList = Except.ok (1, 3) ∧
      demoHost.access (check_path 1 3) = false) ∧
    (switchtec_open demoHost demoOS "/dev/null".toList).1 = none ∧
    (switchtec_open demoHost demoOS "/dev/null".toList).2.errno = ENOTTY_code ∧
    (switchtec_open demoHost demoOS "/dev/null".toList).2.fds = demoOS.fds :=
  ⟨⟨rfl, rfl, rfl, by decide⟩,
    (open_failure_leaves_no_channel demoHost demoOS "/dev/null".toList).1 1 3 rfl rfl rfl
      (by decide)⟩

/-- Witness of C8: two visible entries and a slot after them that holds a word
which is neither `NULL` nor a live block. -/
theorem list_frees_slot_past_entries_witness :
    (staleFs.dir = some demoEntries ∧ (∃ e ∈ demoEntries, e.head? ≠ some '.') ∧
      staleFs.past ≠ 0 ∧ staleFs.past ∉ staleFs.heap) ∧
    switchtec_list staleFs demoSizes = none :=
  ⟨⟨rfl, by decide, by decide, by decide⟩,
    list_frees_slot_past_entries staleFs demoSizes demoEntries rfl (by decide) (by decide)
      (by decide)⟩

/-- Witness of C9: model files holding `0x8543` and `0x54`. -/
theorem list_model_format_witness :
    (11 ≤ demoSizes.model ∧ switchtec_list demoFs demoSizes = some demoResult ∧
      demoResult.devlist = some demoRecords) ∧
    List.Forall₂ (fun d r =>
        (0 < sysfs_read_int demoFs (model_file d) →
          r.model = ['P', 'M'] ++
            (Nat.digits 16 (sysfs_read_int demoFs (model_file d)).toNat).reverse.map
              (fun x => "0123456789ABCDEF".toList.getD x '0')) ∧
        (sysfs_read_int demoFs (model_file d) = 0x54 → r.model = ['P', 'M', '5', '4']) ∧
        (sysfs_read_int demoFs (model_file d) ≤ 0 →
          r.model = ['u', 'n', 'k', 'n', 'o', 'w', 'n']) ∧
        (demoFs.file (model_file d) = none → r.model = ['u', 'n', 'k', 'n', 'o', 'w', 'n']) ∧
        (∀ (e : Int) (buf : List Char), demoFs.file (model_file d) = some (e, buf) →
          -2 ^ 31 ≤ e → e < 0 → r.model = ['u', 'n', 'k', 'n', 'o', 'w', 'n']))
      (scandir demoFs scan_dev_filter).2 demoRecords :=
  ⟨⟨by decide, by decide, rfl⟩,
    list_model_format demoFs demoSizes demoRecords demoResult (by decide) (by decide) rfl⟩

/-- Witness of C10 as amended: the link of `switchtec1` does not resolve, that of
`switchtec0` does. -/
theorem list_unresolved_link_sentinel_witness :
    demoFs.dir = some demoEntries ∧
    (demoFs.calloc_ok = true → demoFs.past = 0 →
      ∃ out, switchtec_list demoFs demoSizes = some out ∧
        out.ret = ((demoEntries.filter (fun e => e.head? ≠ some '.')).length : Int) ∧
        (out.devlist.getD []).length
          = (demoEntries.filter (fun e => e.head? ≠ some '.')).length) ∧
    (∀ (out : ListResult) (recs : List switchtec_device_info),
      switchtec_list demoFs demoSizes = some out → out.devlist = some recs →
      out.ret = ((demoEntries.filter (fun e => e.head? ≠ some '.')).length : Int) ∧
      List.Forall₂ (fun d r =>
          (demoFs.readlink (device_link d) = none ∨ demoFs.readlink (device_link d) = some [] →
            r.pci_dev = "unknown pci device".toList.take (demoSizes.pci_dev - 1)) ∧
          (∀ (target dir comp : List Char) (k : Nat),
            demoFs.readlink (device_link d) = some target → Char.ofNat 0 ∉ target →
            (demoFs.residue (device_link d)).head? = some (Char.ofNat 0) →
            target.take PATH_MAX = dir ++ comp ++ List.replicate k '/' →
            (dir = [] ∨ dir.getLast? = some '/') → comp ≠ [] → '/' ∉ comp →
            r.pci_dev = comp.take (demoSizes.pci_dev - 1)) ∧
          (∀ (target : List Char) (k : Nat),
            demoFs.readlink (device_link d) = some target →
            (demoFs.residue (device_link d)).head? = some (Char.ofNat 0) →
            target.take PATH_MAX = List.replicate (k + 1) '/' →
            r.pci_dev = ['/'].take (demoSizes.pci_dev - 1)))
        ((demoEntries.filter (fun e => e.head? ≠ some '.')).insertionSort alphasort) recs) :=
  ⟨rfl, list_unresolved_link_sentinel demoFs demoSizes demoEntries rfl⟩

end Switchtec
